import Mathlib

/- Shallow embedding of the Simple AI Chat Agent client:
   chat-controller.js (tool-call extraction, loop guard, tool handlers,
   chain-of-thought response parsing, conversation history) and
   tools-service.js (proxy-fallback networking).  JS strings are modelled
   as Lean strings / character lists, JS numbers that the code treats as
   integers as Int/Nat, and fallible operations as Option/Except. -/

namespace AgentSpec

/-! ### Conversation history (chat-controller.js `state.chatHistory`) -/

/-- Role tag of a conversation message (`role`: system, user or assistant). -/
inductive Role where
  | system
  | user
  | assistant
  deriving DecidableEq, Repr

/-- One entry of `state.chatHistory`: `{role, content}`. -/
structure ChatMessage where
  role : Role
  content : String
  deriving DecidableEq, Repr

/-- The system tool-instruction text that `init` seeds `chatHistory` with
(chat-controller.js lines 252-283). -/
def systemToolInstructions : String :=
  "You are an AI assistant with access to three external tools. You MUST use these tools to answer any question that requires up-to-date facts, statistics, or detailed content. Do NOT attempt to answer such questions from your own knowledge. The tools are:\n\n1. web_search(query) → returns a JSON array of search results [\x7btitle, url, snippet\x7d, …]\n2. read_url(url[, start, length]) → returns the text content of a web page from position \x27start\x27 (default 0) up to \x27length\x27 characters (default 1122)\n3. instant_answer(query) → returns a JSON object from DuckDuckGo\x27s Instant Answer API for quick facts, definitions, and summaries (no proxies needed)\n\n**INSTRUCTIONS:**\n- If you need information from the web, you MUST output a tool call as a single JSON object, and NOTHING else. Do NOT include any explanation, markdown, or extra text.\n- After receiving a tool result, reason step by step (Chain of Thought) and decide if you need to call another tool. If so, output another tool call JSON. Only provide your final answer after all necessary tool calls are complete.\n- If you need to read a web page, use read_url. If the snippet ends with an ellipsis (\"...\"), always determine if fetching more text will improve your answer. If so, output another read_url tool call with the same url, start at your previous offset, and length set to 5000. Repeat until you have enough content.\n- If you do NOT know the answer, or are unsure, ALWAYS call a tool first.\n- When calling a tool, output EXACTLY a JSON object and nothing else, in this format:\n  \x7b\"tool\":\"web_search\",\"arguments\":\x7b\"query\":\"your query\"\x7d\x7d\n  \x7b\"tool\":\"read_url\",\"arguments\":\x7b\"url\":\"https://example.com\",\"start\":0,\"length\":1122\x7d\x7d\n  \x7b\"tool\":\"instant_answer\",\"arguments\":\x7b\"query\":\"your query\"\x7d\x7d\n- Do NOT output any other text, markdown, or explanation with the tool call JSON.\n- After receiving the tool result, continue reasoning step by step and then provide your answer.\n\n**EXAMPLES:**\nQ: What is the latest news about OpenAI?\nA: \x7b\"tool\":\"web_search\",\"arguments\":\x7b\"query\":\"latest news about OpenAI\"\x7d\x7d\n\nQ: Read the content of https://example.com and summarize it.\nA: \x7b\"tool\":\"read_url\",\"arguments\":\x7b\"url\":\"https://example.com\",\"start\":0,\"length\":1122\x7d\x7d\n\nQ: What is the capital of France?\nA: \x7b\"tool\":\"instant_answer\",\"arguments\":\x7b\"query\":\"capital of France\"\x7d\x7d\n\nIf you understand, follow these instructions for every relevant question. Do NOT answer from your own knowledge if a tool call is needed. Wait for the tool result before continuing."

/-- The message that `init` places at position 0 of `chatHistory`. -/
def initSeedMessage : ChatMessage :=
  { role := Role.system, content := systemToolInstructions }

/-- History-mutating operations of the chat controller.
`init` resets `chatHistory` to the single system seed (lines 250-290);
`clearChat` sets `chatHistory = []` (lines 304-308);
`pushUser` / `pushAssistant` are the `state.chatHistory.push` calls made by
`sendMessage`, the response handlers and the tool handlers;
`geminiPad` is the `sendMessage` branch (lines 537-539) that pushes an empty
user message when the history is empty and a gemini/gemma model is selected. -/
inductive ChatOp where
  | init
  | clearChat
  | pushUser (content : String)
  | pushAssistant (content : String)
  | geminiPad
  deriving DecidableEq, Repr

/-- Effect of one operation on `state.chatHistory`. -/
def applyOp (op : ChatOp) (h : List ChatMessage) : List ChatMessage :=
  match op with
  | ChatOp.init => [initSeedMessage]
  | ChatOp.clearChat => []
  | ChatOp.pushUser c => h ++ [{ role := Role.user, content := c }]
  | ChatOp.pushAssistant c => h ++ [{ role := Role.assistant, content := c }]
  | ChatOp.geminiPad => if h.isEmpty then h ++ [{ role := Role.user, content := "" }] else h

/-- Runs a sequence of history operations from an initial history. -/
def runOps (ops : List ChatOp) (h : List ChatMessage) : List ChatMessage :=
  ops.foldl (fun acc op => applyOp op acc) h

/-! ### Tool-call loop guard (chat-controller.js `processToolCall`, lines 756-772) -/

/-- Loop-guard portion of the controller state:
`state.lastToolCall` (initially `null`) and `state.lastToolCallCount`
(initially `0`). -/
structure LoopGuardState where
  lastToolCall : Option String
  lastToolCallCount : Nat
  deriving DecidableEq, Repr

/-- `state.MAX_TOOL_CALL_REPEAT`. -/
def MAX_TOOL_CALL_REPEAT : Nat := 3

/-- Fresh controller state for the loop guard. -/
def initialGuardState : LoopGuardState :=
  { lastToolCall := none, lastToolCallCount := 0 }

/-- One `processToolCall` dispatch as it affects the loop guard.
`callSignature` is `JSON.stringify({tool, args})`.  Returns the updated
state together with whether the loop-detected error message is raised
(`state.lastToolCallCount > state.MAX_TOOL_CALL_REPEAT`). -/
def processToolCallGuard (callSignature : String) (st : LoopGuardState) :
    LoopGuardState × Bool :=
  let st' :=
    if st.lastToolCall = some callSignature then
      { st with lastToolCallCount := st.lastToolCallCount + 1 }
    else
      { lastToolCall := some callSignature, lastToolCallCount := 1 }
  (st', decide (st'.lastToolCallCount > MAX_TOOL_CALL_REPEAT))

/-- Dispatches a list of tool-call signatures in order, collecting for each
dispatch whether the loop-detected error is raised. -/
def runGuard (sigs : List String) (st : LoopGuardState) :
    LoopGuardState × List Bool :=
  match sigs with
  | [] => (st, [])
  | s :: rest =>
    let r := processToolCallGuard s st
    let rec' := runGuard rest r.1
    (rec'.1, r.2 :: rec'.2)

/-! ### web_search result deduplication (chat-controller.js lines 175-188) -/

/-- A search result `{title, url, snippet}`. -/
structure SearchResult where
  title : String
  url : String
  snippet : String
  deriving DecidableEq, Repr

/-- The dedup loop: `seenUrls` is the `Set` of already-kept urls, results with
a seen url are dropped, others are appended to `uniqueResults`. -/
def dedupAux (seenUrls : List String) (rs : List SearchResult) : List SearchResult :=
  match rs with
  | [] => []
  | r :: rest =>
    if r.url ∈ seenUrls then dedupAux seenUrls rest
    else r :: dedupAux (r.url :: seenUrls) rest

/-- `uniqueResults` as computed from `allResults` by the web_search handler. -/
def dedupByUrl (rs : List SearchResult) : List SearchResult :=
  dedupAux [] rs

/-! ### Lemmas about the dedup loop -/

theorem dedupAux_sublist (seen : List String) (rs : List SearchResult) :
    (dedupAux seen rs).Sublist rs := by
  induction rs generalizing seen with
  | nil => simp [dedupAux]
  | cons r rest ih =>
    simp only [dedupAux]
    split
    · exact (ih seen).trans (List.sublist_cons_self r rest)
    · exact List.Sublist.cons₂ r (ih _)

theorem mem_dedupAux_not_seen (seen : List String) (rs : List SearchResult)
    (r' : SearchResult) (h : r' ∈ dedupAux seen rs) : r'.url ∉ seen := by
  induction rs generalizing seen with
  | nil => simp [dedupAux] at h
  | cons r rest ih =>
    simp only [dedupAux] at h
    split at h
    · exact ih seen h
    · rcases List.mem_cons.mp h with rfl | h'
      · assumption
      · intro hc
        exact ih (r.url :: seen) h' (List.mem_cons_of_mem _ hc)

theorem dedupAux_urls_nodup (seen : List String) (rs : List SearchResult) :
    ((dedupAux seen rs).map SearchResult.url).Nodup := by
  induction rs generalizing seen with
  | nil => simp [dedupAux]
  | cons r rest ih =>
    simp only [dedupAux]
    split
    · exact ih seen
    · simp only [List.map_cons, List.nodup_cons]
      refine ⟨?_, ih _⟩
      intro hmem
      obtain ⟨r', hr', hurl⟩ := List.mem_map.mp hmem
      exact mem_dedupAux_not_seen _ _ _ hr' (hurl ▸ List.mem_cons_self _ _)

theorem dedupAux_covers (seen : List String) (rs : List SearchResult)
    (r : SearchResult) (hr : r ∈ rs) (hn : r.url ∉ seen) :
    ∃ r' ∈ dedupAux seen rs, r'.url = r.url := by
  induction rs generalizing seen with
  | nil => cases hr
  | cons x rest ih =>
    simp only [dedupAux]
    rcases List.mem_cons.mp hr with rfl | hr'
    · split
      · next hx => exact absurd hx hn
      · exact ⟨r, List.mem_cons_self _ _, rfl⟩
    · split
      · next hx => exact ih seen hr' hn
      · next hx =>
        by_cases hxy : r.url = x.url
        · exact ⟨x, List.mem_cons_self _ _, hxy.symm⟩
        · obtain ⟨r', hm, he⟩ := ih (x.url :: seen) hr' (by
            intro hc
            rcases List.mem_cons.mp hc with h1 | h2
            · exact hxy h1
            · exact hn h2)
          exact ⟨r', List.mem_cons_of_mem _ hm, he⟩

theorem dedupAux_first_occurrence (seen : List String) (rs : List SearchResult)
    (r' : SearchResult) (h : r' ∈ dedupAux seen rs) :
    rs.find? (fun r => r.url == r'.url) = some r' := by
  induction rs generalizing seen with
  | nil => simp [dedupAux] at h
  | cons x rest ih =>
    simp only [dedupAux] at h
    split at h
    · next hx =>
      have hnot := mem_dedupAux_not_seen seen rest r' h
      have hne : (x.url == r'.url) = false := by
        rw [beq_eq_false_iff_ne]
        intro hc
        exact hnot (hc ▸ hx)
      simp only [List.find?_cons, hne]
      exact ih seen h
    · next hx =>
      rcases List.mem_cons.mp h with rfl | h'
      · rw [List.find?_cons_of_pos _ (by simp)]
      · have hnot := mem_dedupAux_not_seen _ _ _ h'
        have hne : (x.url == r'.url) = false := by
          rw [beq_eq_false_iff_ne]
          intro hc
          exact hnot (hc ▸ List.mem_cons_self _ _)
        simp only [List.find?_cons, hne]
        exact ih _ h'

/-- C6: for every concatenated list of search results from multiple query
variants, the merged list `uniqueResults` produced by the web_search dedup
loop contains each url exactly once (the urls of the output are nodup and
every input url is represented), keeps for each url its first occurrence
(each output element is what `find?` locates first in the input), and
preserves first-occurrence order (the output is a sublist of the input). -/
theorem web_search_dedup_correct (rs : List SearchResult) :
    ((dedupByUrl rs).map SearchResult.url).Nodup
    ∧ (dedupByUrl rs).Sublist rs
    ∧ (rs.all fun r => (dedupByUrl rs).any fun r' => r'.url == r.url)
    ∧ ((dedupByUrl rs).all fun r' => rs.find? (fun r => r.url == r'.url) == some r') := by
  refine ⟨dedupAux_urls_nodup [] rs, dedupAux_sublist [] rs, ?_, ?_⟩
  · rw [List.all_eq_true]
    intro r hr
    rw [List.any_eq_true]
    obtain ⟨r', hm, he⟩ := dedupAux_covers [] rs r hr (by simp)
    exact ⟨r', hm, by simp [he]⟩
  · rw [List.all_eq_true]
    intro r' hr'
    have := dedupAux_first_occurrence [] rs r' hr'
    simp [this]

/-- Concrete input for the C6 witness: repeated urls across query variants. -/
def dedupExample : List SearchResult :=
  [{ title := "A", url := "https://a.com", snippet := "s1" },
   { title := "B", url := "https://b.com", snippet := "s2" },
   { title := "C", url := "https://a.com", snippet := "s3" },
   { title := "D", url := "https://b.com", snippet := "s4" },
   { title := "E", url := "https://c.com", snippet := "s5" }]

/-- Witness for C6 at a concrete result list with duplicated urls. -/
theorem web_search_dedup_correct_witness :
    ((dedupByUrl dedupExample).map SearchResult.url).Nodup
    ∧ (dedupByUrl dedupExample).Sublist dedupExample
    ∧ (dedupExample.all fun r => (dedupByUrl dedupExample).any fun r' => r'.url == r.url)
    ∧ ((dedupByUrl dedupExample).all fun r' =>
        dedupExample.find? (fun r => r.url == r'.url) == some r') :=
  web_search_dedup_correct dedupExample

/-! ### C2: the loop guard trips on the 4th identical dispatch -/

/-- C2: from a fresh loop-guard state, dispatching the identical tool call
(same signature) 4 times in a row raises the loop-detected error exactly on
the 4th dispatch; dispatching it 3 times raises no error; and whenever the
signature differs from the stored one, the repeat counter resets to 1. -/
theorem loop_guard_trips_on_fourth (sig : String) :
    (runGuard [sig, sig, sig, sig] initialGuardState).2 = [false, false, false, true]
    ∧ (runGuard [sig, sig, sig] initialGuardState).2 = [false, false, false]
    ∧ ∀ (st : LoopGuardState) (sig' : String), st.lastToolCall ≠ some sig' →
        (processToolCallGuard sig' st).1.lastToolCallCount = 1 := by
  refine ⟨?_, ?_, ?_⟩
  · simp [runGuard, processToolCallGuard, initialGuardState, MAX_TOOL_CALL_REPEAT]
  · simp [runGuard, processToolCallGuard, initialGuardState, MAX_TOOL_CALL_REPEAT]
  · intro st sig' hne
    simp [processToolCallGuard, hne]

/-- Concrete call signature in the shape produced by
`JSON.stringify({tool, args})` for a web_search call. -/
def toolSig : String :=
  "\x7b\"tool\":\"web_search\",\"args\":\x7b\"query\":\"x\"\x7d\x7d"

/-- Witness for C2 at the concrete signature produced for a repeated
web_search call, applying the theorem and discharging its hypothesis. -/
theorem loop_guard_trips_on_fourth_witness :
    (runGuard [toolSig, toolSig, toolSig, toolSig] initialGuardState).2
        = [false, false, false, true]
    ∧ (runGuard [toolSig, toolSig, toolSig] initialGuardState).2 = [false, false, false]
    ∧ (processToolCallGuard toolSig initialGuardState).1.lastToolCallCount = 1 :=
  ⟨(loop_guard_trips_on_fourth toolSig).1,
   (loop_guard_trips_on_fourth toolSig).2.1,
   (loop_guard_trips_on_fourth toolSig).2.2 initialGuardState toolSig (by decide)⟩

/-! ### C3: the history invariant and `clearChat` -/

theorem runOps_head_system (ops : List ChatOp) (h : List ChatMessage)
    (hne : h.head? = some initSeedMessage) (hnc : ChatOp.clearChat ∉ ops) :
    (runOps ops h).head? = some initSeedMessage := by
  induction ops generalizing h with
  | nil => exact hne
  | cons op rest ih =>
    have hop : op ≠ ChatOp.clearChat := fun hc => hnc (hc ▸ List.mem_cons_self _ _)
    have hrest : ChatOp.clearChat ∉ rest := fun hc => hnc (List.mem_cons_of_mem _ hc)
    have hstep : (applyOp op h).head? = some initSeedMessage := by
      obtain ⟨m, t, rfl⟩ : ∃ m t, h = m :: t := by
        cases h with
        | nil => simp at hne
        | cons m t => exact ⟨m, t, rfl⟩
      have hm : m = initSeedMessage := by simpa using hne
      cases op with
      | init => rfl
      | clearChat => exact absurd rfl hop
      | pushUser c => simp [applyOp, hm]
      | pushAssistant c => simp [applyOp, hm]
      | geminiPad => simp [applyOp, hm]
    have : runOps (op :: rest) h = runOps rest (applyOp op h) := rfl
    rw [this]
    exact ih (applyOp op h) hstep hrest

/-- C3 counterexample: the state reached by `init` followed by `clearChat`
has an empty conversation history, so the claimed invariant (history
non-empty with the system instruction first) fails at this reachable state. -/
theorem chat_history_invariant_counterexample :
    runOps [ChatOp.init, ChatOp.clearChat] [] = []
    ∧ (runOps [ChatOp.init, ChatOp.clearChat] []).head? ≠ some initSeedMessage := by
  refine ⟨rfl, ?_⟩
  intro hc
  rw [show runOps [ChatOp.init, ChatOp.clearChat] [] = [] from rfl] at hc
  cases hc

/-- C3 (amended): after `init`, through any sequence of sendMessage pushes,
tool-result pushes and the gemini empty-history padding — but with no
`clearChat` — the history stays non-empty with the system instruction
message first.  (`clearChat` resets the history to `[]` without re-seeding
the system message, which is what refutes the original claim.) -/
theorem chat_history_system_head (ops : List ChatOp) (h0 : List ChatMessage)
    (hnc : ChatOp.clearChat ∉ ops) :
    runOps (ChatOp.init :: ops) h0 ≠ []
    ∧ (runOps (ChatOp.init :: ops) h0).head? = some initSeedMessage := by
  have hh : (runOps (ChatOp.init :: ops) h0) = runOps ops [initSeedMessage] := rfl
  have hhead : (runOps ops [initSeedMessage]).head? = some initSeedMessage :=
    runOps_head_system ops [initSeedMessage] rfl hnc
  refine ⟨?_, hh ▸ hhead⟩
  intro hcontra
  rw [← hh, hcontra] at hhead
  cases hhead

/-- Witness for C3 (amended) at a concrete operation sequence. -/
theorem chat_history_system_head_witness :
    runOps [ChatOp.init, ChatOp.pushUser "hi", ChatOp.pushAssistant "result"] [] ≠ []
    ∧ (runOps [ChatOp.init, ChatOp.pushUser "hi", ChatOp.pushAssistant "result"] []).head?
        = some initSeedMessage :=
  chat_history_system_head [ChatOp.pushUser "hi", ChatOp.pushAssistant "result"] []
    (by decide)

/-! ### C4: the web_search near-duplicate query filter (chat-controller.js
lines 100-121) -/

/-- JS whitespace class `\s` (and the characters `String.prototype.trim`
strips), modelled on its ASCII members plus NBSP and the BOM; the full class
also contains further Unicode space separators, none of which occur in the
inputs considered here. -/
def jsWhitespaceChar (c : Char) : Bool :=
  c == ' ' || c == '\t' || c == '\n' || c == '\r' ||
  c == Char.ofNat 11 || c == Char.ofNat 12 || c == Char.ofNat 160 ||
  c == Char.ofNat 0xfeff

/-- JS `String.prototype.toLowerCase`, characterwise (ASCII letters). -/
def jsToLowerCase (s : String) : String :=
  String.mk (s.data.map Char.toLower)

/-- JS `String.prototype.trim`: strip leading and trailing whitespace. -/
def jsTrim (s : String) : String :=
  String.mk (((s.data.dropWhile jsWhitespaceChar).reverse.dropWhile jsWhitespaceChar).reverse)

/-- One Wagner-Fischer row update: given the previous dynamic-programming
row (`pDiag :: pRest`, aligned so that `pDiag` is the diagonal entry), the
character `ca` of the first string, the remaining characters of the second
string, and the entry just computed to the left, produce the rest of the
new row. -/
def levNewRow (ca : Char) : List Char → List Nat → Nat → List Nat
  | [], _, _ => []
  | _ :: _, [], _ => []
  | cb :: bs, pDiag :: pRest, left =>
    let pRight := pRest.headD 0
    let cur := min (min (pRight + 1) (left + 1)) (pDiag + (if ca = cb then 0 else 1))
    cur :: levNewRow ca bs pRest cur

/-- Modelled from the spec: `Utils.levenshtein` lives in the Utils / proxy-list
collaborator, which is not under src/; the spec says it "owns Levenshtein
distance" and the near-duplicate filter uses "a string-edit-distance
threshold".  This is the standard Levenshtein edit distance computed by the
Wagner-Fischer dynamic program. -/
def levenshtein (a b : String) : Nat :=
  let bs := b.toList
  let initRow : List Nat := List.range (bs.length + 1)
  let finalRow := a.toList.foldl
    (fun prev ca =>
      let left := prev.headD 0 + 1
      left :: levNewRow ca bs prev left)
    initRow
  finalRow.getLastD 0

/-- The filter of chat-controller.js lines 104-108: a suggested query `q` is
kept as distinct from the original query iff
`levenshtein(q.toLowerCase(), orig.toLowerCase()) >= 5` or the length ratio
`min(len)/max(len)` is below `0.7`.  The JS float comparison
`minLen / maxLen < 0.7` is modelled exactly on rationals as
`10 * minLen < 7 * maxLen`. -/
def keptAsDistinctQuery (q origQuery : String) : Bool :=
  let dist := levenshtein (jsToLowerCase q) (jsToLowerCase origQuery)
  let minLen := min q.length origQuery.length
  let maxLen := max q.length origQuery.length
  decide (dist ≥ 5) || decide (10 * minLen < 7 * maxLen)

/-- The near-duplicate test among accepted suggestions (lines 112-116):
`dist < minDistance && lenRatio >= minLengthRatio`. -/
def nearDuplicateSuggestion (q uq : String) : Bool :=
  let dist := levenshtein (jsToLowerCase q) (jsToLowerCase uq)
  let minLen := min q.length uq.length
  let maxLen := max q.length uq.length
  decide (dist < 5) && decide (10 * minLen ≥ 7 * maxLen)

/-- The `uniqueSuggestions` accumulation step (lines 110-119): push `q`
unless some already-kept suggestion is a near-duplicate of it. -/
def addUniqueSuggestion (acc : List String) (q : String) : List String :=
  if acc.any (fun uq => nearDuplicateSuggestion q uq) then acc else acc ++ [q]

/-- Lines 100-121: from the AI reply lines, the list of queries the
web_search handler will issue: the original query followed by the trimmed,
non-empty suggestions that pass the distinctness filter and the
near-duplicate dedup among themselves. -/
def queriesToTry (origQuery : String) (aiReplyLines : List String) : List String :=
  let s0 := (aiReplyLines.map jsTrim).filter
    (fun q => !(q == "") && !(q == origQuery))
  let s1 := s0.filter (fun q => keptAsDistinctQuery q origQuery)
  let s2 := s1.foldl addUniqueSuggestion []
  origQuery :: s2

set_option maxRecDepth 40000 in
/-- C4 counterexample: for the original query "health benefits of green tea"
and the suggestion "benefits of green tea", the Levenshtein distance is 7,
which meets the `dist >= 5` disjunct, so the code classifies the suggestion
as DISTINCT and keeps it — it is not filtered out as a near-duplicate, contrary
to the claim (and to the spec scenario, whose "length ratio ≈0.82, edit
distance low" miscomputes both quantities: the ratio is 0.75 and the
distance 7). -/
theorem green_tea_filter_counterexample :
    keptAsDistinctQuery "benefits of green tea" "health benefits of green tea" = true := by
  decide

set_option maxRecDepth 40000 in
/-- C4 (amended): the suggestion "benefits of green tea" has edit distance 7
from "health benefits of green tea" (length ratio 21/28 = 0.75), so it passes
the distinctness filter and web_search issues it as a second search query
alongside the original. -/
theorem green_tea_suggestion_kept :
    levenshtein "benefits of green tea" "health benefits of green tea" = 7
    ∧ queriesToTry "health benefits of green tea" ["benefits of green tea"]
        = ["health benefits of green tea", "benefits of green tea"] := by
  refine ⟨by decide, by decide⟩

/-! ### C5: readUrl proxy fallback (tools-service.js lines 107-133) -/

/-- Outcome of one proxy attempt in the `readUrl` loop.  `failed` covers a
rejected `fetch` and a non-ok HTTP status (both throw inside the `try` and
move on to the next proxy); `okResponse body` is an ok response whose text
the proxy envelope parser produced (the per-proxy `parseResponse` catches
its own errors and always yields a string, so an ok response never throws). -/
inductive ProxyOutcome where
  | failed
  | okResponse (body : String)
  deriving DecidableEq, Repr

/-- The `readUrl` proxy loop over the per-proxy outcomes, in list order.
`extractText` stands for the DOM text extraction applied to the body
(DOMParser, drop script/style, join the p/h1/h2/h3 texts): it is total and
never throws.  Returns the result — `Except.error "All proxies failed"`
when the loop exhausts the list — paired with the number of proxies
attempted. -/
def readUrlRun (extractText : String → String) :
    List ProxyOutcome → Except String String × Nat
  | [] => (Except.error "All proxies failed", 0)
  | ProxyOutcome.failed :: rest =>
    ((readUrlRun extractText rest).1, (readUrlRun extractText rest).2 + 1)
  | ProxyOutcome.okResponse body :: _ => (Except.ok (extractText body), 1)

theorem readUrlRun_all_failed (extractText : String → String) :
    ∀ outcomes : List ProxyOutcome, (∀ o ∈ outcomes, o = ProxyOutcome.failed) →
      readUrlRun extractText outcomes = (Except.error "All proxies failed", outcomes.length) := by
  intro outcomes
  induction outcomes with
  | nil => intro _; rfl
  | cons o rest ih =>
    intro h
    have ho := h o (List.mem_cons_self _ _)
    subst ho
    have hrest := fun x hx => h x (List.mem_cons_of_mem _ hx)
    simp only [readUrlRun, ih hrest, List.length_cons]

theorem readUrlRun_first_ok (extractText : String → String) :
    ∀ pre : List ProxyOutcome, (∀ o ∈ pre, o = ProxyOutcome.failed) →
      ∀ (body : String) (post : List ProxyOutcome),
        readUrlRun extractText (pre ++ ProxyOutcome.okResponse body :: post)
          = (Except.ok (extractText body), pre.length + 1) := by
  intro pre
  induction pre with
  | nil => intro _ body post; rfl
  | cons o rest ih =>
    intro h body post
    have ho := h o (List.mem_cons_self _ _)
    subst ho
    have hrest := fun x hx => h x (List.mem_cons_of_mem _ hx)
    have hr := ih hrest body post
    show ((readUrlRun extractText (rest ++ ProxyOutcome.okResponse body :: post)).1,
          (readUrlRun extractText (rest ++ ProxyOutcome.okResponse body :: post)).2 + 1)
        = (Except.ok (extractText body), rest.length + 1 + 1)
    rw [hr]

/-- C5 counterexample: the claim counts "an unparsable/empty result" from a
proxy as a failure that moves the loop on to the next proxy.  In `readUrl`
an ok (2xx) response is a success even when its extracted text is empty:
with proxy 1 returning an ok response with empty text and proxy 2 returning
ok "Second proxy content" (so K = 2 under the claim), the code stops at
proxy 1 after exactly one attempt and returns the empty string — not proxy
2\x27s result after two attempts. -/
theorem read_url_empty_body_counterexample :
    readUrlRun (fun s => s)
        [ProxyOutcome.okResponse "", ProxyOutcome.okResponse "Second proxy content"]
      = (Except.ok "", 1) := rfl

/-- C5 (amended): a `readUrl` proxy attempt fails only when the fetch throws
or returns a non-2xx status; any ok response (even one whose extracted text
is empty or an error placeholder) is a success.  With proxies 1..K-1 failing
in that sense and proxy K returning an ok response, the operation performs
exactly K attempts in list order, never touches proxies K+1..N, and returns
the text extracted from proxy K\x27s body; if all N proxies fail it raises
the single error "All proxies failed" after N attempts. -/
theorem read_url_proxy_fallback (extractText : String → String)
    (pre post : List ProxyOutcome) (body : String)
    (hpre : ∀ o ∈ pre, o = ProxyOutcome.failed) :
    readUrlRun extractText (pre ++ ProxyOutcome.okResponse body :: post)
      = (Except.ok (extractText body), pre.length + 1)
    ∧ ∀ outcomes : List ProxyOutcome, (∀ o ∈ outcomes, o = ProxyOutcome.failed) →
        readUrlRun extractText outcomes = (Except.error "All proxies failed", outcomes.length) :=
  ⟨readUrlRun_first_ok extractText pre hpre body post,
   fun outcomes h => readUrlRun_all_failed extractText outcomes h⟩

/-- Witness for C5 (amended): proxies 1 and 2 fail, proxy 3 succeeds with
"page text", proxy 4 untouched; and a two-proxy list that fails entirely. -/
theorem read_url_proxy_fallback_witness :
    readUrlRun (fun s => s)
        [ProxyOutcome.failed, ProxyOutcome.failed,
         ProxyOutcome.okResponse "page text", ProxyOutcome.failed]
      = (Except.ok "page text", 3)
    ∧ readUrlRun (fun s => s) [ProxyOutcome.failed, ProxyOutcome.failed]
      = (Except.error "All proxies failed", 2) := by
  have h := read_url_proxy_fallback (fun s => s)
      [ProxyOutcome.failed, ProxyOutcome.failed] [ProxyOutcome.failed] "page text"
      (by decide)
  exact ⟨h.1, h.2 [ProxyOutcome.failed, ProxyOutcome.failed] (by decide)⟩

/-! ### C7: read_url snippet slicing (chat-controller.js lines 204-207) -/

/-- JS `String.prototype.slice(startIdx, stopIdx)` over a character list:
negative indices count from the end, indices are clamped to `[0, len]`, and
an empty slice results when the normalized start is not below the normalized
stop. -/
def jsStringSlice (s : List Char) (startIdx stopIdx : Int) : List Char :=
  let len : Int := s.length
  let a := if startIdx < 0 then max (len + startIdx) 0 else min startIdx len
  let b := if stopIdx < 0 then max (len + stopIdx) 0 else min stopIdx len
  if a < b then (s.drop a.toNat).take (b - a).toNat else []

/-- Line 204: `const start = (typeof args.start === "number" && args.start >= 0)
? args.start : 0` — `none` models a missing or non-number field. -/
def readUrlStartArg (argStart : Option Int) : Int :=
  match argStart with
  | some n => if n ≥ 0 then n else 0
  | none => 0

/-- Line 205: `const length = (typeof args.length === "number" && args.length > 0)
? args.length : 1122`. -/
def readUrlLengthArg (argLength : Option Int) : Int :=
  match argLength with
  | some n => if n > 0 then n else 1122
  | none => 1122

/-- Lines 204-207: the snippet `String(result).slice(start, start + length)`
and the flag `hasMore = (start + length) < String(result).length` computed by
the read_url handler from the fetched page text. -/
def readUrlSnippet (argStart argLength : Option Int) (pageText : List Char) :
    List Char × Bool :=
  let s := readUrlStartArg argStart
  let l := readUrlLengthArg argLength
  (jsStringSlice pageText s (s + l), decide (s + l < (pageText.length : Int)))

/-- C7: for every fetched page text and valid arguments `start ≥ 0` and
`length > 0`, the read_url handler produces the character range
`[start, start+length)` of the text as the snippet and
`hasMore = (start + length < total length)`. -/
theorem read_url_snippet_spec (pageText : List Char) (s l : Nat) (hl : 0 < l) :
    readUrlSnippet (some (s : Int)) (some (l : Int)) pageText
      = ((pageText.drop s).take l, decide (s + l < pageText.length)) := by
  have hs0 : ((s : Int) ≥ 0) := Int.ofNat_nonneg s
  have hl0 : ((l : Int) > 0) := by exact_mod_cast hl
  simp only [readUrlSnippet, readUrlStartArg, readUrlLengthArg, if_pos hs0, if_pos hl0,
    jsStringSlice, Prod.mk.injEq]
  set len := pageText.length with hlen
  have hnneg1 : ¬ ((s : Int) < 0) := by omega
  have hnneg2 : ¬ ((s : Int) + (l : Int) < 0) := by omega
  rw [if_neg hnneg1, if_neg hnneg2]
  constructor
  · by_cases hcase : s < len
    · have hab : min (s : Int) (len : Int) < min ((s : Int) + (l : Int)) (len : Int) := by
        omega
      rw [if_pos hab]
      have ha : (min (s : Int) (len : Int)).toNat = s := by omega
      have hb : (min ((s : Int) + (l : Int)) (len : Int) - min (s : Int) (len : Int)).toNat
          = min (s + l) len - s := by omega
      rw [ha, hb]
      rw [List.take_eq_take]
      simp only [List.length_drop, ← hlen]
      omega
    · have hab : ¬ (min (s : Int) (len : Int) < min ((s : Int) + (l : Int)) (len : Int)) := by
        omega
      rw [if_neg hab]
      rw [List.drop_eq_nil_of_le (by omega : pageText.length ≤ s), List.take_nil]
  · rw [decide_eq_decide]
    omega

/-- Witness for C7: start=0, length=10 on page text "Hello world example"
yields snippet "Hello worl" and hasMore = true. -/
theorem read_url_snippet_spec_witness :
    readUrlSnippet (some 0) (some 10) "Hello world example".toList
      = ("Hello worl".toList, true) := by
  have h := read_url_snippet_spec "Hello world example".toList 0 10 (by decide)
  exact h.trans (by decide)

/-! ### C8: read_url argument validation (chat-controller.js lines 194-207) -/

/-- Arguments of a read_url tool call as the handler sees them: `url` is
`none` when absent or not a string (the `typeof` test), `start`/`length`
are `none` when absent or not a number. -/
structure ReadUrlArgs where
  url : Option String
  start : Option Int
  length : Option Int
  deriving DecidableEq, Repr

/-- The regex test `/^https?:\\/\\//.test(u)`: the string begins with
"http://" or "https://". -/
def matchesHttpScheme (u : String) : Bool :=
  "http://".toList.isPrefixOf u.toList || "https://".toList.isPrefixOf u.toList

/-- The line 196 test `!args.url || typeof args.url !== "string" ||
!/^https?:\\/\\//.test(args.url)`, as a validity predicate (true = valid). -/
def validReadUrlArgs (args : ReadUrlArgs) : Bool :=
  match args.url with
  | none => false
  | some u => !(u == "") && matchesHttpScheme u

/-- What the read_url handler does before any slicing: either it reports the
validation error (`addMessage` of "Error: Invalid read_url argument."
followed by `return`, so no network call is attempted), or it calls
`ToolsService.readUrl(args.url)` — a network call. -/
inductive ReadUrlAction where
  | validationError
  | fetchUrl (url : String)
  deriving DecidableEq, Repr

/-- Lines 194-203: the decision the handler makes from its arguments. -/
def readUrlDispatch (args : ReadUrlArgs) : ReadUrlAction :=
  match args.url with
  | none => ReadUrlAction.validationError
  | some u =>
    if !(u == "") && matchesHttpScheme u then
      ReadUrlAction.fetchUrl u
    else ReadUrlAction.validationError

/-- C8 counterexample: arguments with a valid url but `length = 0` (not a
positive integer).  The claim requires a validation error with no network
call; the handler instead proceeds to fetch the url (the start/length checks
only pick defaults, after the fetch). -/
theorem read_url_validation_counterexample :
    readUrlDispatch { url := some "https://example.com", start := some 0, length := some 0 }
      = ReadUrlAction.fetchUrl "https://example.com" := by
  decide

/-- C8 (amended): only the url is validated before the network call — a
missing/non-string url or one not matching `^https?://` short-circuits with
the validation error and no network call; `start` and `length` are never
validated up front (malformed values are silently replaced by the defaults 0
and 1122 after the page is fetched), so they cannot cause a short-circuit. -/
theorem read_url_validation_amended :
    (∀ args : ReadUrlArgs, validReadUrlArgs args = false →
        readUrlDispatch args = ReadUrlAction.validationError)
    ∧ (∀ (u : String) (s l : Option Int),
        matchesHttpScheme u = true → u ≠ "" →
        readUrlDispatch { url := some u, start := s, length := l }
          = ReadUrlAction.fetchUrl u)
    ∧ (∀ (u : Option String) (s1 l1 s2 l2 : Option Int),
        readUrlDispatch { url := u, start := s1, length := l1 }
          = readUrlDispatch { url := u, start := s2, length := l2 }) := by
  refine ⟨?_, ?_, ?_⟩
  · intro args hv
    obtain ⟨ou, os, ol⟩ := args
    cases ou with
    | none => rfl
    | some u =>
      have hv' : (!(u == "") && matchesHttpScheme u) = false := hv
      simp only [readUrlDispatch, hv', Bool.false_eq_true, if_false]
  · intro u s l hsw hne
    have hcond : (!(u == "") && matchesHttpScheme u) = true := by
      simp [hsw, hne]
    simp [readUrlDispatch, hcond]
  · intro u s1 l1 s2 l2
    cases u <;> simp [readUrlDispatch]

/-- Witness for C8 (amended): an `ftp://` url is rejected with no fetch; a
valid url with negative start and zero length is fetched anyway; and the
dispatch ignores start/length entirely. -/
theorem read_url_validation_amended_witness :
    readUrlDispatch { url := some "ftp://example.com", start := some 0, length := some 5 }
      = ReadUrlAction.validationError
    ∧ readUrlDispatch { url := some "https://example.com", start := some (-4), length := some 0 }
      = ReadUrlAction.fetchUrl "https://example.com"
    ∧ readUrlDispatch { url := none, start := some 1, length := some 2 }
      = readUrlDispatch { url := none, start := none, length := none } :=
  ⟨read_url_validation_amended.1
      { url := some "ftp://example.com", start := some 0, length := some 5 } (by decide),
   read_url_validation_amended.2.1 "https://example.com" (some (-4)) (some 0)
      (by decide) (by decide),
   read_url_validation_amended.2.2 none (some 1) (some 2) none none⟩

/-! ### C1: tool-call extraction (chat-controller.js lines 38-47)

`extractToolCall` applies the greedy regex `/\x7b[\s\S]*\x7d/` to the model
output, then `JSON.parse`s the match, returning `null` on regex or parse
failure.  The regex is modelled below by `spanExtract` and `JSON.parse` by a
recursive-descent parser of the JSON grammar. -/

/-- The `\x7b` character, written via its code point to keep brace characters
out of string and character literals. -/
def lbrace : Char := Char.ofNat 123

/-- The `\x7d` character. -/
def rbrace : Char := Char.ofNat 125

/-- A JavaScript JSON value as produced by `JSON.parse`.  JS numbers are
floats; the numeric lexeme is kept verbatim instead of modelling float
semantics.  Object fields are kept in insertion order (first occurrence of
a key keeps its position, a duplicate key overwrites the value), as JS
objects do. -/
inductive Json where
  | null
  | bool (b : Bool)
  | num (lexeme : String)
  | str (s : String)
  | arr (elems : List Json)
  | obj (fields : List (String × Json))

/-- JSON whitespace (the only characters `JSON.parse` skips between tokens). -/
def jsonWsChar (c : Char) : Bool :=
  c == ' ' || c == '\t' || c == '\n' || c == '\r'

/-- Drops leading JSON whitespace. -/
def skipJsonWs : List Char → List Char
  | [] => []
  | c :: rest => if jsonWsChar c then skipJsonWs rest else c :: rest

/-- Value of a hexadecimal digit, for `\u` escapes. -/
def hexDigitVal (c : Char) : Option Nat :=
  let n := c.toNat
  if 48 ≤ n ∧ n ≤ 57 then some (n - 48)
  else if 97 ≤ n ∧ n ≤ 102 then some (n - 87)
  else if 65 ≤ n ∧ n ≤ 70 then some (n - 55)
  else none

/-- Parses the body of a JSON string after the opening quote, decoding the
standard escapes; returns the decoded characters and the input after the
closing quote.  Raw control characters are a syntax error, as in
`JSON.parse`. -/
def parseStringBody : Nat → List Char → Option (List Char × List Char)
  | 0, _ => none
  | _, [] => none
  | fuel + 1, c :: rest =>
    if c == '"' then some ([], rest)
    else if c == '\\' then
      match rest with
      | [] => none
      | e :: rest2 =>
        if e == '"' then (parseStringBody fuel rest2).map (fun pr => ('"' :: pr.1, pr.2))
        else if e == '\\' then (parseStringBody fuel rest2).map (fun pr => ('\\' :: pr.1, pr.2))
        else if e == '/' then (parseStringBody fuel rest2).map (fun pr => ('/' :: pr.1, pr.2))
        else if e == 'b' then
          (parseStringBody fuel rest2).map (fun pr => (Char.ofNat 8 :: pr.1, pr.2))
        else if e == 'f' then
          (parseStringBody fuel rest2).map (fun pr => (Char.ofNat 12 :: pr.1, pr.2))
        else if e == 'n' then (parseStringBody fuel rest2).map (fun pr => ('\n' :: pr.1, pr.2))
        else if e == 'r' then (parseStringBody fuel rest2).map (fun pr => ('\r' :: pr.1, pr.2))
        else if e == 't' then (parseStringBody fuel rest2).map (fun pr => ('\t' :: pr.1, pr.2))
        else if e == 'u' then
          match rest2 with
          | h1 :: h2 :: h3 :: h4 :: rest3 =>
            match hexDigitVal h1, hexDigitVal h2, hexDigitVal h3, hexDigitVal h4 with
            | some a, some b, some c2, some d =>
              (parseStringBody fuel rest3).map
                (fun pr => (Char.ofNat (((a * 16 + b) * 16 + c2) * 16 + d) :: pr.1, pr.2))
            | _, _, _, _ => none
          | _ => none
        else none
    else if c.toNat < 32 then none
    else (parseStringBody fuel rest).map (fun pr => (c :: pr.1, pr.2))

/-- Parses a full JSON string body (fuel covers the whole remaining input). -/
def parseJsonString (cs : List Char) : Option (List Char × List Char) :=
  parseStringBody (cs.length + 1) cs

/-- Optional fraction part `.digits` of a JSON number. -/
def parseFracPart : List Char → Option (List Char × List Char)
  | [] => some ([], [])
  | c :: r =>
    if c == '.' then
      let ds := r.takeWhile Char.isDigit
      if ds.isEmpty then none
      else some (c :: ds, r.dropWhile Char.isDigit)
    else some ([], c :: r)

/-- Optional exponent part `[eE][+-]?digits` of a JSON number. -/
def parseExpPart : List Char → Option (List Char × List Char)
  | [] => some ([], [])
  | c :: r =>
    if c == 'e' || c == 'E' then
      let sr :=
        match r with
        | s :: r2 => if s == '+' || s == '-' then (([s] : List Char), r2) else (([] : List Char), r)
        | [] => (([] : List Char), ([] : List Char))
      let ds := sr.2.takeWhile Char.isDigit
      if ds.isEmpty then none
      else some (c :: (sr.1 ++ ds), sr.2.dropWhile Char.isDigit)
    else some ([], c :: r)

/-- Lexes a JSON number `-?(0|[1-9][0-9]*)(.digits)?([eE][+-]?digits)?`,
returning its lexeme and the rest of the input.  A superfluous leading zero
is a syntax error, as in `JSON.parse`. -/
def parseNumberLex (cs : List Char) : Option (List Char × List Char) :=
  let nr :=
    match cs with
    | c :: r => if c == '-' then (([c] : List Char), r) else (([] : List Char), c :: r)
    | [] => (([] : List Char), ([] : List Char))
  match nr.2 with
  | [] => none
  | d :: _ =>
    if ¬ d.isDigit then none
    else
      let intPart := nr.2.takeWhile Char.isDigit
      let r1 := nr.2.dropWhile Char.isDigit
      if 1 < intPart.length ∧ intPart.head? = some '0' then none
      else
        match parseFracPart r1 with
        | none => none
        | some (fracPart, r2) =>
          match parseExpPart r2 with
          | none => none
          | some (expPart, r3) => some (nr.1 ++ intPart ++ fracPart ++ expPart, r3)

/-- Assigning to an object field: a duplicate key overwrites the value in
place, a fresh key is appended, matching JS object insertion-order
semantics. -/
def insertField (fields : List (String × Json)) (k : String) (v : Json) :
    List (String × Json) :=
  if fields.any (fun kv => kv.1 == k) then
    fields.map (fun kv => if kv.1 == k then (k, v) else kv)
  else fields ++ [(k, v)]

mutual

/-- Parses one JSON value (after skipping leading whitespace), returning it
and the rest of the input.  Fuel decreases on every recursive step; the
wrapper `parseJsonWhole` supplies more fuel than any input can consume. -/
def parseValue : Nat → List Char → Option (Json × List Char)
  | 0, _ => none
  | fuel + 1, cs =>
    match skipJsonWs cs with
    | [] => none
    | c :: rest =>
      if c == '"' then
        match parseJsonString rest with
        | some (sChars, r) => some (Json.str (String.mk sChars), r)
        | none => none
      else if c == lbrace then
        match skipJsonWs rest with
        | d :: r2 => if d == rbrace then some (Json.obj [], r2) else parseObjectItems fuel rest []
        | [] => none
      else if c == '[' then
        match skipJsonWs rest with
        | d :: r2 => if d == ']' then some (Json.arr [], r2) else parseArrayItems fuel rest []
        | [] => none
      else if c == 'n' then
        match rest with
        | u :: l1 :: l2 :: r => if u == 'u' ∧ l1 == 'l' ∧ l2 == 'l' then some (Json.null, r) else none
        | _ => none
      else if c == 't' then
        match rest with
        | r1 :: u :: e :: r =>
          if r1 == 'r' ∧ u == 'u' ∧ e == 'e' then some (Json.bool true, r) else none
        | _ => none
      else if c == 'f' then
        match rest with
        | a :: l :: s :: e :: r =>
          if a == 'a' ∧ l == 'l' ∧ s == 's' ∧ e == 'e' then some (Json.bool false, r) else none
        | _ => none
      else
        match parseNumberLex (c :: rest) with
        | some (lex, r) => some (Json.num (String.mk lex), r)
        | none => none

/-- Parses the members of a JSON object after the opening brace (non-empty
object case): `"key" : value` separated by commas, closed by `\x7d`. -/
def parseObjectItems : Nat → List Char → List (String × Json) → Option (Json × List Char)
  | 0, _, _ => none
  | fuel + 1, cs, acc =>
    match skipJsonWs cs with
    | [] => none
    | c :: rest =>
      if c == '"' then
        match parseJsonString rest with
        | some (keyChars, r1) =>
          match skipJsonWs r1 with
          | [] => none
          | d :: r2 =>
            if d == ':' then
              match parseValue fuel r2 with
              | some (v, r3) =>
                match skipJsonWs r3 with
                | [] => none
                | e :: r4 =>
                  if e == ',' then parseObjectItems fuel r4 (insertField acc (String.mk keyChars) v)
                  else if e == rbrace then some (Json.obj (insertField acc (String.mk keyChars) v), r4)
                  else none
              | none => none
            else none
        | none => none
      else none

/-- Parses the elements of a JSON array after the opening bracket (non-empty
array case): values separated by commas, closed by `]`. -/
def parseArrayItems : Nat → List Char → List Json → Option (Json × List Char)
  | 0, _, _ => none
  | fuel + 1, cs, acc =>
    match parseValue fuel cs with
    | some (v, r1) =>
      match skipJsonWs r1 with
      | [] => none
      | e :: r2 =>
        if e == ',' then parseArrayItems fuel r2 (acc ++ [v])
        else if e == ']' then some (Json.arr (acc ++ [v]), r2)
        else none
    | none => none

end

/-- `JSON.parse` on a full input: one value, possibly surrounded by
whitespace, and nothing else; anything further is a syntax error. -/
def parseJsonWhole (cs : List Char) : Option Json :=
  match parseValue (2 * cs.length + 8) cs with
  | some (v, rest) => if (skipJsonWs rest).isEmpty then some v else none
  | none => none

/-- The greedy regex match of `/\x7b[\s\S]*\x7d/`: a match exists iff some
`\x7b` precedes some `\x7d`, and it then spans from the FIRST `\x7b` in the
text to the LAST `\x7d` (leftmost start, greedy extent). -/
def spanExtract (cs : List Char) : Option (List Char) :=
  match cs.findIdx? (fun c => c == lbrace),
        (cs.reverse.findIdx? (fun c => c == rbrace)).map (fun k => cs.length - 1 - k) with
  | some i, some j => if i < j then some ((cs.drop i).take (j + 1 - i)) else none
  | some _, none => none
  | none, _ => none

/-- `extractToolCall` (chat-controller.js lines 38-47): regex-match the
brace span, `JSON.parse` it, return `null` (here `none`) when either step
fails. -/
def extractToolCall (text : List Char) : Option Json :=
  match spanExtract text with
  | some span => parseJsonWhole span
  | none => none

/-- The canonical serialization of the tool call
`{"tool":"web_search","arguments":{"query":"x"}}`. -/
def toolCallJsonString : String :=
  "\x7b\"tool\":\"web_search\",\"arguments\":\x7b\"query\":\"x\"\x7d\x7d"

/-- The parsed form of `toolCallJsonString`. -/
def toolCallJsonValue : Json :=
  Json.obj [("tool", Json.str "web_search"),
            ("arguments", Json.obj [("query", Json.str "x")])]

/-- Model output embedding the well-formed tool call in prose whose trailing
text happens to contain a `\x7d` character. -/
def fencedToolCallText : String :=
  "Sure, here is the call: " ++ toolCallJsonString ++ " :-) enjoy \x7d"

/-- C1 counterexample: the well-formed tool-call object `toolCallJsonValue`
is embedded in `fencedToolCallText`, but because the trailing prose contains
a `\x7d`, the greedy regex span runs to that last `\x7d` and `JSON.parse`
fails on the trailing garbage, so extraction returns `none` instead of the
embedded object. -/
theorem extract_tool_call_counterexample :
    extractToolCall fencedToolCallText.toList = none
    ∧ parseJsonWhole toolCallJsonString.toList = some toolCallJsonValue :=
  ⟨rfl, rfl⟩

theorem findIdx?_first_of_append (p s q : List Char) (pred : Char → Bool)
    (hp : ∀ c ∈ p, pred c = false) (hfind : s.findIdx? pred = some 0) :
    (p ++ s ++ q).findIdx? pred = some p.length := by
  rw [List.append_assoc, List.findIdx?_append, List.findIdx?_eq_none_iff.mpr hp,
    Option.none_or, List.findIdx?_append, hfind]
  simp

/-- C1 (amended): extraction recovers the embedded object whenever the
well-formed tool-call JSON span is the brace extent of the text — i.e. the
leading prose contains no `\x7b` and the trailing prose contains no `\x7d`
(the counterexample shows a stray brace in the prose breaks extraction). -/
theorem extract_tool_call_amended (p s q : List Char) (obj : Json)
    (hp : ∀ c ∈ p, ¬ c = lbrace)
    (hq : ∀ c ∈ q, ¬ c = rbrace)
    (hhead : s.head? = some lbrace)
    (hlast : s.getLast? = some rbrace)
    (hparse : parseJsonWhole s = some obj) :
    extractToolCall (p ++ s ++ q) = some obj := by
  have hs2 : 2 ≤ s.length := by
    rcases s with _ | ⟨c, _ | ⟨d, t⟩⟩
    · simp at hhead
    · simp only [List.head?_cons, Option.some.injEq] at hhead
      rw [List.getLast?_singleton] at hlast
      simp only [Option.some.injEq] at hlast
      rw [hhead] at hlast
      exact absurd hlast (by decide)
    · simp only [List.length_cons]
      omega
  have hsfirst : s.findIdx? (fun c => c == lbrace) = some 0 := by
    cases s with
    | nil => simp at hhead
    | cons c t =>
      simp only [List.head?_cons, Option.some.injEq] at hhead
      rw [List.findIdx?_cons]
      simp [hhead]
  have hfirst : (p ++ s ++ q).findIdx? (fun c => c == lbrace) = some p.length :=
    findIdx?_first_of_append p s q (fun c => c == lbrace)
      (fun c hc => by rw [beq_eq_false_iff_ne]; exact hp c hc) hsfirst
  have hlastIdx : (p ++ s ++ q).reverse.findIdx? (fun c => c == rbrace) = some q.length := by
    have hrev : (p ++ s ++ q).reverse = q.reverse ++ s.reverse ++ p.reverse := by
      rw [List.reverse_append, List.reverse_append, List.append_assoc]
    have hsrev : s.reverse.findIdx? (fun c => c == rbrace) = some 0 := by
      have hh : s.reverse.head? = some rbrace := by
        rw [← List.getLast?_eq_head?_reverse]
        exact hlast
      rcases hrs : s.reverse with _ | ⟨c, t⟩
      · rw [hrs] at hh
        simp at hh
      · rw [hrs] at hh
        simp only [List.head?_cons, Option.some.injEq] at hh
        rw [List.findIdx?_cons]
        simp [hh]
    have h1 := findIdx?_first_of_append q.reverse s.reverse p.reverse (fun c => c == rbrace)
      (fun c hc => by rw [beq_eq_false_iff_ne]; exact hq c (List.mem_reverse.mp hc)) hsrev
    rw [hrev, h1, List.length_reverse]
  have hlen : (p ++ s ++ q).length = p.length + s.length + q.length := by
    simp only [List.length_append]
  have hij : p.length < (p ++ s ++ q).length - 1 - q.length := by
    rw [hlen]
    omega
  have harith : (p ++ s ++ q).length - 1 - q.length + 1 - p.length = s.length := by
    rw [hlen]
    omega
  have hspan : spanExtract (p ++ s ++ q) = some s := by
    simp only [spanExtract, hfirst, hlastIdx, Option.map_some', hij, if_true]
    rw [harith, List.append_assoc, List.drop_left, List.take_left]
  unfold extractToolCall
  rw [hspan]
  exact hparse

/-- Witness for C1 (amended): prose without stray braces around the tool
call; extraction recovers exactly the embedded object. -/
theorem extract_tool_call_amended_witness :
    extractToolCall ("Sure: ".toList ++ toolCallJsonString.toList ++ " Done.".toList)
      = some toolCallJsonValue :=
  extract_tool_call_amended "Sure: ".toList toolCallJsonString.toList " Done.".toList
    toolCallJsonValue (by decide) (by decide) (by decide) (by decide) rfl

/-! ### C9 and C10: the chain-of-thought parser (chat-controller.js
lines 342-435)

`parseCoTResponse` first runs

  `while ((match = stepRegex.exec(response)) !== null) { ... }`

with the global, case-insensitive regex

  `(?:Step\s*(\d+)[\s:,-]*)?(?:\[(Fact|Assumption|Action|Decision)\])?[:\-\s]*([\s\S]*?)(?:\n+Summary[:\-\s]*([\s\S]*?)(?=\n|$))?`

Every component of this regex is optional, a star, or a lazy star, so the
regex matches (possibly emptily) at EVERY position of every input.
`RegExp.prototype.exec` on a global regex sets `lastIndex` to the end of the
match and does not advance past a zero-length match, and it returns `null`
only when no match exists at or after `lastIndex` — which never happens
here.  Hence the loop never terminates, on any input.  The regex semantics
are modelled exactly below; the loop is modelled with fuel, and the claim
theorems show the fuel is exhausted for every fuel value. -/

/-- Case-insensitive match of a literal at the head of the input (the `/i`
flag); returns the rest on success. -/
def matchLitCI : List Char → List Char → Option (List Char)
  | [], cs => some cs
  | _ :: _, [] => none
  | l :: ls, c :: cs => if c.toLower == l.toLower then matchLitCI ls cs else none

theorem matchLitCI_length_le :
    ∀ (lit cs r : List Char), matchLitCI lit cs = some r → r.length ≤ cs.length := by
  intro lit
  induction lit with
  | nil =>
    intro cs r h
    simp only [matchLitCI, Option.some.injEq] at h
    subst h
    exact Nat.le_refl _
  | cons l ls ih =>
    intro cs r h
    cases cs with
    | nil => simp [matchLitCI] at h
    | cons c cs' =>
      simp only [matchLitCI] at h
      split at h
      · have := ih cs' r h
        simp only [List.length_cons]
        omega
      · exact absurd h (by simp)

theorem length_dropWhile_le (p : Char → Bool) (l : List Char) :
    (l.dropWhile p).length ≤ l.length :=
  (List.dropWhile_sublist p).length_le

/-- The character class `[\s:,-]` closing the optional Step group. -/
def stepTrailClass (c : Char) : Bool :=
  jsWhitespaceChar c || c == ':' || c == ',' || c == '-'

/-- The character class `[:\-\s]` standing between the optional groups and
the lazy group. -/
def punctClass (c : Char) : Bool :=
  c == ':' || c == '-' || jsWhitespaceChar c

/-- The optional group `(?:Step\s*(\d+)[\s:,-]*)?` at the current position:
`Step` (case-insensitive), optional whitespace, at least one digit (the
capture), then a greedy `[\s:,-]*` run.  On success returns the digit group
and the rest; on failure the optional group participates emptily. -/
def matchStepGroup (cs : List Char) : Option (List Char × List Char) :=
  match matchLitCI "step".toList cs with
  | none => none
  | some r1 =>
    let r2 := r1.dropWhile jsWhitespaceChar
    let digits := r2.takeWhile Char.isDigit
    if digits.isEmpty then none
    else some (digits, (r2.dropWhile Char.isDigit).dropWhile stepTrailClass)

theorem matchStepGroup_rest_le (cs d r : List Char)
    (h : matchStepGroup cs = some (d, r)) : r.length ≤ cs.length := by
  unfold matchStepGroup at h
  cases hm : matchLitCI "step".toList cs with
  | none => rw [hm] at h; exact absurd h (by simp)
  | some r1 =>
    rw [hm] at h
    simp only at h
    split at h
    · exact absurd h (by simp)
    · simp only [Option.some.injEq, Prod.mk.injEq] at h
      obtain ⟨-, h2⟩ := h
      subst h2
      have h3 := matchLitCI_length_le "step".toList cs r1 hm
      have h4 := length_dropWhile_le jsWhitespaceChar r1
      have h5 := length_dropWhile_le Char.isDigit (r1.dropWhile jsWhitespaceChar)
      have h6 := length_dropWhile_le stepTrailClass
        ((r1.dropWhile jsWhitespaceChar).dropWhile Char.isDigit)
      omega

/-- The regex alternatives `Fact|Assumption|Action|Decision`, tried in
order, each needing the closing `]` right after the word; if the closing
bracket is missing the engine backtracks to the next alternative. -/
def matchTypeAlt : List String → List Char → Option (String × List Char)
  | [], _ => none
  | w :: ws, cs =>
    match matchLitCI w.toList cs with
    | some (c :: r) => if c == ']' then some (w, r) else matchTypeAlt ws cs
    | some [] => matchTypeAlt ws cs
    | none => matchTypeAlt ws cs

theorem matchTypeAlt_rest_le :
    ∀ (ws : List String) (cs : List Char) (w : String) (r : List Char),
      matchTypeAlt ws cs = some (w, r) → r.length ≤ cs.length := by
  intro ws
  induction ws with
  | nil => intro cs w r h; simp [matchTypeAlt] at h
  | cons word rest ih =>
    intro cs w r h
    cases hm : matchLitCI word.toList cs with
    | none =>
      simp only [matchTypeAlt, hm] at h
      exact ih cs w r h
    | some res =>
      cases res with
      | nil =>
        simp only [matchTypeAlt, hm] at h
        exact ih cs w r h
      | cons c r' =>
        simp only [matchTypeAlt, hm] at h
        split at h
        · simp only [Option.some.injEq, Prod.mk.injEq] at h
          obtain ⟨-, h2⟩ := h
          subst h2
          have := matchLitCI_length_le word.toList cs (c :: r') hm
          simp only [List.length_cons] at this
          omega
        · exact ih cs w r h

/-- The optional group `(?:\[(Fact|Assumption|Action|Decision)\])?`. -/
def matchTypeGroup (cs : List Char) : Option (String × List Char) :=
  match cs with
  | [] => none
  | c :: rest =>
    if c == '[' then matchTypeAlt ["Fact", "Assumption", "Action", "Decision"] rest
    else none

theorem matchTypeGroup_rest_le (cs : List Char) (w : String) (r : List Char)
    (h : matchTypeGroup cs = some (w, r)) : r.length ≤ cs.length := by
  unfold matchTypeGroup at h
  cases cs with
  | nil => exact absurd h (by simp)
  | cons c rest =>
    simp only at h
    split at h
    · have := matchTypeAlt_rest_le ["Fact", "Assumption", "Action", "Decision"] rest w r h
      simp only [List.length_cons]
      omega
    · exact absurd h (by simp)

/-- One match of `stepRegex` at the current position, returning the input
REST after the match together with groups 1 (digits) and 2 (type word).
The lazy group `([\s\S]*?)` always participates with the EMPTY string:
everything after it is optional, so the engine never needs to grow it, and
the `(?:\n+Summary...)?` group can never match because the greedy
`[:\-\s]*` run just consumed every whitespace character, in particular any
`\n` the summary group would need — so group 3 is always `""` and group 4
never participates. -/
def stepRegexMatchAt (cs : List Char) : List Char × Option (List Char) × Option String :=
  let g1r : Option (List Char) × List Char :=
    match matchStepGroup cs with
    | some (d, r) => (some d, r)
    | none => (none, cs)
  let g2r : Option String × List Char :=
    match matchTypeGroup g1r.2 with
    | some (w, r) => (some w, r)
    | none => (none, g1r.2)
  (g2r.2.dropWhile punctClass, g1r.1, g2r.1)

theorem stepRegexMatchAt_rest_le (cs : List Char) :
    (stepRegexMatchAt cs).1.length ≤ cs.length := by
  unfold stepRegexMatchAt
  cases h1 : matchStepGroup cs with
  | none =>
    cases h2 : matchTypeGroup cs with
    | none =>
      simp only [h1, h2]
      exact length_dropWhile_le punctClass cs
    | some wr =>
      obtain ⟨w, r⟩ := wr
      simp only [h1, h2]
      have := matchTypeGroup_rest_le cs w r h2
      have := length_dropWhile_le punctClass r
      omega
  | some dr =>
    obtain ⟨d, r1⟩ := dr
    have hr1 := matchStepGroup_rest_le cs d r1 h1
    cases h2 : matchTypeGroup r1 with
    | none =>
      simp only [h1, h2]
      have := length_dropWhile_le punctClass r1
      omega
    | some wr =>
      obtain ⟨w, r⟩ := wr
      simp only [h1, h2]
      have := matchTypeGroup_rest_le r1 w r h2
      have := length_dropWhile_le punctClass r
      omega

/-- JS `parseInt` on a digit group. -/
def digitsToNat (ds : List Char) : Nat :=
  ds.foldl (fun acc c => acc * 10 + (c.toNat - 48)) 0

/-- A parsed reasoning step `{number, type, text, summary}`. -/
structure CoTStep where
  number : Nat
  type : String
  text : String
  summary : String
  deriving DecidableEq, Repr

/-- The `while ((match = stepRegex.exec(response)) !== null)` loop of
`parseCoTResponse` (lines 346-363).  `pos` is the regex `lastIndex`;
`lastIdxVar` is the local `lastIndex` variable of the JS function, and
`found` its `foundStep`.  `exec` returns the match at the current position
(a match exists at every position, possibly of zero length) and sets
`lastIndex` to its end; it would return `null` — the only loop exit — only
if `lastIndex` exceeded the input length, which it never does.  The loop is
modelled with fuel: `none` means the fuel was exhausted. -/
def stepLoop (cs : List Char) : Nat → Nat → List CoTStep → Nat → Bool →
    Option (List CoTStep × Nat × Bool)
  | 0, _, _, _, _ => none
  | fuel + 1, pos, steps, lastIdxVar, found =>
    if pos > cs.length then some (steps, lastIdxVar, found)
    else
      let m := stepRegexMatchAt (cs.drop pos)
      let newPos := pos + ((cs.drop pos).length - m.1.length)
      let g3 : String := ""
      if (m.2.1.isSome || m.2.2.isSome || !(g3 == "")) && !(g3 == "")
          && decide (0 < (jsTrim g3).length) then
        stepLoop cs fuel newPos
          (steps ++ [{ number := match m.2.1 with
                         | some d => digitsToNat d
                         | none => steps.length + 1,
                       type := m.2.2.getD "Step",
                       text := jsTrim g3,
                       summary := "" }])
          newPos true
      else
        stepLoop cs fuel newPos steps lastIdxVar found

theorem stepLoop_eq_none (cs : List Char) :
    ∀ (fuel pos : Nat) (steps : List CoTStep) (li : Nat) (f : Bool),
      pos ≤ cs.length → stepLoop cs fuel pos steps li f = none := by
  intro fuel
  induction fuel with
  | zero => intro pos steps li f _; rfl
  | succ n ih =>
    intro pos steps li f hp
    have hrestle := stepRegexMatchAt_rest_le (cs.drop pos)
    have hlen : (cs.drop pos).length = cs.length - pos := List.length_drop _ _
    simp only [stepLoop]
    rw [if_neg (by omega : ¬ pos > cs.length)]
    split
    · apply ih
      omega
    · apply ih
      omega

/-- The alternation `(?:Final\s*Answer|Answer|Conclusion)` at the current
position (case-insensitive, alternatives tried in regex order); returns the
rest after the matched marker. -/
def answerAltAt (cs : List Char) : Option (List Char) :=
  match matchLitCI "final".toList cs with
  | some r1 =>
    match matchLitCI "answer".toList (r1.dropWhile jsWhitespaceChar) with
    | some r2 => some r2
    | none =>
      match matchLitCI "answer".toList cs with
      | some r => some r
      | none => matchLitCI "conclusion".toList cs
  | none =>
    match matchLitCI "answer".toList cs with
    | some r => some r
    | none => matchLitCI "conclusion".toList cs

/-- `response.match(answerRegex)` with the non-global regex
`/(?:Final\s*Answer|Answer|Conclusion)[:\-\s]*([\s\S]*)$/i`: the leftmost
position where an alternative matches; group 1 is everything after the
marker and the greedy `[:\-\s]*` run, to the end of the input. -/
def findAnswerFrom : List Char → Option (List Char)
  | [] => none
  | c :: rest =>
    match answerAltAt (c :: rest) with
    | some r => some (r.dropWhile punctClass)
    | none => findAnswerFrom rest

/-- First branch `(Thinking:|Reasoning:)` of the fallback regex at the
current position: returns the marker length. -/
def fbAlt1At (cs : List Char) : Option Nat :=
  if (matchLitCI "thinking:".toList cs).isSome then some 9
  else if (matchLitCI "reasoning:".toList cs).isSome then some 10
  else none

/-- Second branch `(Answer:|Conclusion:)` of the fallback regex. -/
def fbAlt2At (cs : List Char) : Option Nat :=
  if (matchLitCI "answer:".toList cs).isSome then some 7
  else if (matchLitCI "conclusion:".toList cs).isSome then some 11
  else none

/-- Finds the next fallback-regex match from the current position: offset to
the match, marker length, and which branch matched (`true` for
Thinking/Reasoning). -/
def fbScan : List Char → Option (Nat × Nat × Bool)
  | [] => none
  | c :: rest =>
    match fbAlt1At (c :: rest) with
    | some n => some (0, n, true)
    | none =>
      match fbAlt2At (c :: rest) with
      | some n => some (0, n, false)
      | none => (fbScan rest).map (fun dnb => (dnb.1 + 1, dnb.2.1, dnb.2.2))

/-- Distance to the next position where one of the four markers begins (or
to the end of the input) — where the lazy content group stops, because of
the lookahead `(?=Thinking:|Reasoning:|Answer:|Conclusion:|$)`. -/
def fbNextStop : List Char → Nat
  | [] => 0
  | c :: rest =>
    if (fbAlt1At (c :: rest)).isSome || (fbAlt2At (c :: rest)).isSome then 0
    else 1 + fbNextStop rest

/-- Accumulator of the fallback loop: `thinkingSteps`, `fallbackAnswer`,
`hasStructuredResponse` and `foundAnswer` of lines 377-382. -/
structure FbState where
  thinkingSteps : List String
  fallbackAnswer : String
  hasStructuredResponse : Bool
  foundAnswer : Bool
  deriving DecidableEq, Repr

/-- The fallback `while ((m = fallbackRegex.exec(response)) !== null)` loop
(lines 383-392).  Every match of this regex contains a marker, so the loop
advances and terminates; the caller supplies ample fuel.  The body compares
the matched marker text STRICTLY (`m[1] === "Thinking:"`) even though the
regex is case-insensitive, so a marker matched in a different case updates
nothing. -/
def fbLoop (cs : List Char) : Nat → Nat → FbState → FbState
  | 0, _, st => st
  | fuel + 1, pos, st =>
    match fbScan (cs.drop pos) with
    | none => st
    | some (d, n, isAlt1) =>
      let markerText := String.mk (((cs.drop pos).drop d).take n)
      let contentStart := pos + d + n
      let contentLen := fbNextStop (cs.drop contentStart)
      let content := jsTrim (String.mk ((cs.drop contentStart).take contentLen))
      let st' :=
        if isAlt1 then
          if markerText == "Thinking:" || markerText == "Reasoning:" then
            { st with thinkingSteps := st.thinkingSteps ++ [content],
                      hasStructuredResponse := true }
          else st
        else
          if markerText == "Answer:" || markerText == "Conclusion:" then
            { st with fallbackAnswer := content, foundAnswer := true,
                      hasStructuredResponse := true }
          else st
      fbLoop cs fuel (contentStart + contentLen) st'

/-- The result record of `parseCoTResponse`:
`{steps, answer, hasStructuredResponse, partial, error, stage}` (the JS
`partial` field is named `midStream` here). -/
structure CoTParseResult where
  steps : List CoTStep
  answer : String
  hasStructuredResponse : Bool
  midStream : Bool
  error : Option String
  stage : Option String
  deriving DecidableEq, Repr

/-- Lines 393-412: the return value of the fallback block. -/
def fbResult (midStream : Bool) (response : String) (fb : FbState) : CoTParseResult :=
  let trimmed := jsTrim response
  let answerError : String × Option String :=
    if !fb.hasStructuredResponse then
      if trimmed.length == 0 then (fb.fallbackAnswer, some "Empty response from AI.")
      else (trimmed, some "AI response did not follow the expected format.")
    else if !fb.foundAnswer && decide (0 < fb.thinkingSteps.length) then
      (fb.fallbackAnswer, some "AI response missing final Answer.")
    else (fb.fallbackAnswer, none)
  { steps := [], answer := answerError.1, hasStructuredResponse := fb.hasStructuredResponse,
    midStream := midStream, error := answerError.2,
    stage := if midStream && !fb.foundAnswer then some "thinking" else none }

/-- Lines 364-434: the remainder of `parseCoTResponse` after the step loop
(unreachable in execution, modelled for completeness): extract the answer
via `answerRegex`, or the text after the last step; if neither steps nor an
answer were found, run the fallback `Thinking:/Answer:` block grammar; the
second `if (!foundStep && !answer)` of line 415 is dead code in the source
because the fallback block already returned in exactly that case. -/
def parseCoTRest (response : String) (midStream : Bool)
    (steps : List CoTStep) (lastIdxVar : Nat) (foundStep : Bool) : CoTParseResult :=
  let cs := response.data
  let answer :=
    match findAnswerFrom cs with
    | some g1 => jsTrim (String.mk g1)
    | none =>
      if foundStep then
        let afterSteps := jsTrim (String.mk (cs.drop lastIdxVar))
        if 0 < afterSteps.length then afterSteps else ""
      else ""
  if ¬ foundStep ∧ answer == "" then
    fbResult midStream response
      (fbLoop cs (cs.length + 1) 0
        { thinkingSteps := [], fallbackAnswer := "", hasStructuredResponse := false,
          foundAnswer := false })
  else
    { steps := steps, answer := answer, hasStructuredResponse := true,
      midStream := midStream, error := none,
      stage := if midStream && (answer == "") then some "thinking" else none }

/-- `parseCoTResponse(response, isPartial)` with fuel for the step
extraction loop.  `none` models non-termination (the fuel ran out): had the
JS loop terminated after n iterations, any fuel above n would produce
`some`; the claim theorems prove the result is `none` for EVERY fuel, i.e.
the function never returns. -/
def parseCoTResponse (fuel : Nat) (response : String) (midStream : Bool) :
    Option CoTParseResult :=
  match stepLoop response.data fuel 0 [] 0 false with
  | none => none
  | some slf => some (parseCoTRest response midStream slf.1 slf.2.1 slf.2.2)

/-- C9 (code bug): the claim — parsing the same text with the same flag
twice returns identical results — presumes `parseCoTResponse` returns at
all.  It never does: its step-extraction regex matches the empty string at
every position and `exec` does not advance `lastIndex` past an empty match,
so the `while` loop never terminates, for every input and flag; no call
returns any parse result.  (The fueled embedding returns `none`, i.e. runs
out, for every fuel.) -/
theorem parse_cot_never_returns (fuel : Nat) (response : String) (midStream : Bool) :
    parseCoTResponse fuel response midStream = none := by
  unfold parseCoTResponse
  rw [stepLoop_eq_none response.data fuel 0 [] 0 false (Nat.zero_le _)]

/-- C10 (code bug): on the empty input with `isPartial = false` the claim
— and the intent visible in lines 393-399 — is a returned result with
`error` = "Empty response from AI.", empty steps and empty answer; but the
step-extraction loop never terminates (the regex matches "" at position 0
and `exec` stays there), so that branch is unreachable and the parser
returns nothing at all. -/
theorem parse_cot_empty_input_diverges (fuel : Nat) :
    parseCoTResponse fuel "" false = none := by
  unfold parseCoTResponse
  rw [stepLoop_eq_none "".data fuel 0 [] 0 false (Nat.zero_le _)]

end AgentSpec
